import Mathlib

/-!
Verification development for the task-manager core: the `Task` domain model
(`src/core/task.js`), the repository layer (`src/storage/taskRepository.js`)
and the schema migration (`DatabaseManager.migrate` in `src/storage/database.js`).
JavaScript strings are modelled as `String`, SQLite INTEGER as `Int`,
nullable TEXT columns as `Option String`, the `tasks` table as a list of rows
in rowid (insertion) order, and `new Date().toISOString()` as an explicit
`now : String` parameter threaded through each operation.  A thrown exception
is `Except.error` / `Option.none`; the SQL NOT-FOUND sentinel (`null` result)
is an explicit `none` payload inside `Except.ok`.
-/

namespace Todo

/-- JavaScript `\w` character class: ASCII letters (codes 97–122 and 65–90),
digits (48–57) and underscore (95). -/
def isWordChar (c : Char) : Bool :=
  (97 ≤ c.toNat && c.toNat ≤ 122) || (65 ≤ c.toNat && c.toNat ≤ 90) ||
  (48 ≤ c.toNat && c.toNat ≤ 57) || c.toNat = 95

/-- `String.prototype.toLowerCase` per character: on the `\w` characters the
tag regex can capture (all ASCII) this is exactly `Char.toLower`. -/
def jsToLower (c : Char) : Char :=
  Char.toLower c

/-- The character class of `^[a-z0-9_]+$`: lowercase ASCII letters, digits and
underscore. -/
def isLowerTagChar (c : Char) : Bool :=
  (97 ≤ c.toNat && c.toNat ≤ 122) || (48 ≤ c.toNat && c.toNat ≤ 57) || c.toNat = 95

/-- Scan for the global regex `#(\w+)` of `Task.extractTags`: at each position a
`#` followed by at least one word character matches the maximal word-character
run; matching resumes after the run, otherwise the scan advances one character.
The captured run is returned already lower-cased (the `.toLowerCase()` map).
`fuel` is an upper bound on the number of scan steps (structural recursion so
the function evaluates inside the kernel); `tagScan` supplies `l.length`,
which always suffices because every step consumes at least one character. -/
def tagScanAux : Nat → List Char → List (List Char)
  | 0, _ => []
  | _, [] => []
  | fuel + 1, c :: rest =>
    if c = '#' then
      let run := rest.takeWhile isWordChar
      if run.isEmpty then tagScanAux fuel rest
      else (run.map jsToLower) :: tagScanAux fuel (rest.drop run.length)
    else tagScanAux fuel rest

/-- All matches of `/#(\w+)/g` over `l`, lower-cased. -/
def tagScan (l : List Char) : List (List Char) :=
  tagScanAux l.length l

/-- `Task.extractTags(content)` from `src/core/task.js`: all matches of
`/#(\w+)/g`, with the `#` stripped and the token lower-cased. -/
def extractTags (content : String) : List String :=
  (tagScan content.toList).map (fun cs => String.mk cs)

/-- Character class `[-a-zA-Z0-9@:%._\+~#=]` of the URL regex (host part). -/
def classA (c : Char) : Bool :=
  ('a' ≤ c && c ≤ 'z') || ('A' ≤ c && c ≤ 'Z') || ('0' ≤ c && c ≤ '9') ||
  c = '-' || c = '@' || c = ':' || c = '%' || c = '.' || c = '_' || c = '+' ||
  c = '~' || c = '#' || c = '='

/-- Character class `[a-zA-Z0-9()]` of the URL regex (top-level segment). -/
def classB (c : Char) : Bool :=
  ('a' ≤ c && c ≤ 'z') || ('A' ≤ c && c ≤ 'Z') || ('0' ≤ c && c ≤ '9') ||
  c = '(' || c = ')'

/-- Character class `[-a-zA-Z0-9()@:%_\+.~#?&//=]` of the URL regex (path /
query / fragment tail). -/
def classC (c : Char) : Bool :=
  ('a' ≤ c && c ≤ 'z') || ('A' ≤ c && c ≤ 'Z') || ('0' ≤ c && c ≤ '9') ||
  c = '-' || c = '(' || c = ')' || c = '@' || c = ':' || c = '%' || c = '_' ||
  c = '+' || c = '.' || c = '~' || c = '#' || c = '?' || c = '&' || c = '/' ||
  c = '='

/-- JS `\b` at the position right after `prev`, with `rest` the unconsumed
input: a word boundary holds iff exactly one side is a word character
(end of input counting as non-word). -/
def wordBoundaryAfter (prev : Char) (rest : List Char) : Bool :=
  match rest with
  | [] => isWordChar prev
  | c :: _ => isWordChar prev != isWordChar c

/-- Backtracking over `[a-zA-Z0-9()]{1,6}\b([-...]*)` : try `m` characters of
`classB` (from the greedy maximum downwards), check the word boundary, then
consume the maximal `classC` tail.  Returns the consumed length from `r2`. -/
def tryBs (r2 : List Char) : Nat → Option Nat
  | 0 => none
  | m + 1 =>
    match r2.get? m with
    | none => tryBs r2 m
    | some prev =>
      if wordBoundaryAfter prev (r2.drop (m + 1)) then
        some ((m + 1) + ((r2.drop (m + 1)).takeWhile classC).length)
      else tryBs r2 m

/-- Backtracking over `[-...]{1,256}\.[a-zA-Z0-9()]{1,6}\b([-...]*)` : try `n`
characters of `classA` from the greedy maximum downwards, require a literal
`.`, then hand over to `tryBs`.  Returns the consumed length from `r`. -/
def tryAs (r : List Char) : Nat → Option Nat
  | 0 => none
  | n + 1 =>
    match r.drop (n + 1) with
    | '.' :: r2 =>
      match tryBs r2 (min 6 ((r2.takeWhile classB).length)) with
      | some k => some ((n + 1) + 1 + k)
      | none => tryAs r n
    | _ => tryAs r n

/-- Host-and-tail part of the URL regex starting at `r`. -/
def matchHost (r : List Char) : Option Nat :=
  tryAs r (min 256 ((r.takeWhile classA).length))

/-- The literal `https?:\/\/` prefix; returns consumed length and the rest. -/
def matchScheme : List Char → Option (Nat × List Char)
  | 'h' :: 't' :: 't' :: 'p' :: rest =>
    match rest with
    | 's' :: ':' :: '/' :: '/' :: r => some (8, r)
    | ':' :: '/' :: '/' :: r => some (7, r)
    | _ => none
  | _ => none

/-- One attempted match of the URL regex
`https?:\/\/(www\.)?[-a-zA-Z0-9@:%._\+~#=]{1,256}\.[a-zA-Z0-9()]{1,6}\b([-a-zA-Z0-9()@:%_\+.~#?&//=]*)`
at the head of `l`; the greedy optional group `(www\.)?` is tried first and
backtracked on failure.  Returns the total matched length. -/
def matchUrl (l : List Char) : Option Nat :=
  match matchScheme l with
  | none => none
  | some (k, r) =>
    match r with
    | 'w' :: 'w' :: 'w' :: '.' :: r2 =>
      match matchHost r2 with
      | some h => some (k + 4 + h)
      | none => (matchHost r).map (fun h => k + h)
    | _ => (matchHost r).map (fun h => k + h)

/-- Global scan of `content.match(urlRegex)`: all non-overlapping matches in
left-to-right order (`lastIndex` advances past each match).  Fuelled like
`tagScanAux` so it evaluates inside the kernel. -/
def urlScanAux : Nat → List Char → List (List Char)
  | 0, _ => []
  | _, [] => []
  | fuel + 1, c :: rest =>
    match matchUrl (c :: rest) with
    | some (n + 1) => (c :: rest).take (n + 1) :: urlScanAux fuel (rest.drop n)
    | _ => urlScanAux fuel rest

/-- All matches of the URL regex over `l`. -/
def urlScan (l : List Char) : List (List Char) :=
  urlScanAux l.length l

/-- `Task.extractUrls(content)` from `src/core/task.js`: `content.match(urlRegex) || []`. -/
def extractUrls (content : String) : List String :=
  (urlScan content.toList).map (fun cs => String.mk cs)

/-- The in-memory `Task` entity of `src/core/task.js`.  `priority` is a SQLite
INTEGER, timestamps are ISO strings, `completedAt` / `scheduledFor` are
nullable. -/
structure Task where
  id : String
  content : String
  priority : Int
  status : String
  createdAt : String
  completedAt : Option String
  scheduledFor : Option String
  updatedAt : String
  extractedUrls : List String
  tags : List String
deriving DecidableEq

/-- One row of the `tasks` table, with the exact column set of
`DatabaseManager.createTables` (snake_case names, `completed_at`,
`scheduled_for`, `extracted_urls` and `tags` nullable TEXT). -/
structure Row where
  id : String
  content : String
  priority : Int
  status : String
  created_at : String
  completed_at : Option String
  scheduled_for : Option String
  updated_at : String
  extracted_urls : Option String
  tags : Option String
deriving DecidableEq

/-- The `tasks` table in rowid (insertion) order. -/
abbrev Store := List Row

/-- `Object.values(Task.STATUS)` from `src/core/task.js`. -/
def STATUS_VALUES : List String := ["pending", "in_progress", "waiting", "completed"]

/-- JSON string escaping as performed by `JSON.stringify` on the characters
that can actually occur in extracted URLs and tags (no control characters). -/
def jsonEscapeChar (c : Char) : List Char :=
  if c = '"' || c = '\\' then ['\\', c] else [c]

/-- `JSON.stringify` of one string value. -/
def jsonEncodeString (s : String) : String :=
  String.mk ('"' :: (s.toList.flatMap jsonEscapeChar) ++ ['"'])

/-- `JSON.stringify` of an array of strings, e.g. `[]` or `["work","urgent"]`. -/
def jsonEncodeStrings (l : List String) : String :=
  "[" ++ String.intercalate "," (l.map jsonEncodeString) ++ "]"

/-- Body of one JSON string after the opening quote: returns the decoded
characters and the input after the closing quote. -/
def parseJsonStringBody : List Char → Option (List Char × List Char)
  | [] => none
  | '"' :: r => some ([], r)
  | '\\' :: c :: r =>
    if c = '"' || c = '\\' then
      (parseJsonStringBody r).map (fun p => (c :: p.1, p.2))
    else none
  | c :: r => (parseJsonStringBody r).map (fun p => (c :: p.1, p.2))

/-- One-or-more comma-separated JSON strings (fuelled by input length). -/
def parseStrings (fuel : Nat) (l : List Char) : Option (List String × List Char) :=
  match fuel with
  | 0 => none
  | fuel + 1 =>
    match l with
    | '"' :: r =>
      match parseJsonStringBody r with
      | none => none
      | some (s, rest) =>
        match rest with
        | ',' :: r2 =>
          match parseStrings fuel r2 with
          | some (ss, r3) => some (String.mk s :: ss, r3)
          | none => none
        | _ => some ([String.mk s], rest)
    | _ => none

/-- `JSON.parse` restricted to the values this program ever stores in the
`tags` / `extracted_urls` columns: arrays of strings without insignificant
whitespace, exactly the image of `jsonEncodeStrings`.  `none` models a thrown
`SyntaxError`. -/
def jsonParseStringArray (s : String) : Option (List String) :=
  match s.toList with
  | ['[', ']'] => some []
  | '[' :: r =>
    match parseStrings (r.length + 1) r with
    | some (ss, [']']) => some ss
    | _ => none
  | _ => none

/-- The decoded form of a database row.  `Task.fromJSON(row)` spreads the
snake_case row object into the camelCase-destructuring constructor, so only
`id`, `content`, `priority`, `status` (and the explicitly rebuilt `tags`)
reach it; `createdAt` and `updatedAt` fall back to their `new Date()` defaults
(`now`), `completedAt` and `scheduledFor` fall back to `null`, and the
constructor re-derives `extractedUrls` / `tags` from `content`, ignoring any
supplied values. -/
def taskOfRow (r : Row) (now : String) : Task :=
  { id := r.id
    content := r.content
    priority := r.priority
    status := r.status
    createdAt := now
    completedAt := none
    scheduledFor := none
    updatedAt := now
    extractedUrls := extractUrls r.content
    tags := extractTags r.content }

/-- `Task.fromJSON(data)` from `src/core/task.js` applied to a database row.
`data.extractedUrls` is `undefined` (the column is `extracted_urls`), so that
branch never parses; `data.tags` is the `tags` column and is parsed when
truthy (non-null, non-empty), with `none` modelling the `JSON.parse` throw on
invalid text.  The parsed array itself is then discarded by the constructor,
which re-derives both fields from `content` (see `taskOfRow`). -/
def Task.fromJSON (r : Row) (now : String) : Option Task :=
  match r.tags with
  | none => some (taskOfRow r now)
  | some s =>
    if s = "" then some (taskOfRow r now)
    else
      match jsonParseStringArray s with
      | none => none
      | some _ => some (taskOfRow r now)

/-- `new Task({ content, scheduledFor })` as performed by
`TaskRepository.createTask`: fresh `id` (the uuid, passed explicitly),
defaults `priority = 0`, `status = 'pending'`, timestamps `now`, and derived
`extractedUrls` / `tags`. -/
def newTask (content : String) (scheduledFor : Option String) (newId now : String) : Task :=
  { id := newId
    content := content
    priority := 0
    status := "pending"
    createdAt := now
    completedAt := none
    scheduledFor := scheduledFor
    updatedAt := now
    extractedUrls := extractUrls content
    tags := extractTags content }

/-- JS truthiness of this model's `completedAt` field (`null` and `''` are
falsy, every other string truthy). -/
def jsTruthyStr : Option String → Bool
  | none => false
  | some s => s ≠ ""

/-- `Task.setStatus(status)` from `src/core/task.js`: throws
`Invalid status: ...` unless `status` is one of the four values; otherwise
sets `status`, bumps `updatedAt`, sets `completedAt` to now when completing,
and clears a truthy `completedAt` when moving away from completed. -/
def Task.setStatus (t : Task) (status now : String) : Except String Task :=
  if STATUS_VALUES.contains status then
    .ok { t with
          status := status
          updatedAt := now
          completedAt :=
            if status = "completed" then some now
            else if jsTruthyStr t.completedAt then none
            else t.completedAt }
  else .error ("Invalid status: " ++ status)

/-- `Task.setPriority(priority)` from `src/core/task.js`. -/
def Task.setPriority (t : Task) (p : Int) (now : String) : Task :=
  { t with priority := p, updatedAt := now }

/-- `Task.toJSON()` feeding the positional INSERT of
`TaskRepository.createTask`: the two list fields are `JSON.stringify`-ed. -/
def Task.toRow (t : Task) : Row :=
  { id := t.id
    content := t.content
    priority := t.priority
    status := t.status
    created_at := t.createdAt
    completed_at := t.completedAt
    scheduled_for := t.scheduledFor
    updated_at := t.updatedAt
    extracted_urls := some (jsonEncodeStrings t.extractedUrls)
    tags := some (jsonEncodeStrings t.tags) }

/-- `'pending' | 'in_progress' | 'waiting'` — the statuses selected by
`getAllActiveTasks`'s `status IN (...)` predicate. -/
def isActiveStatus (st : String) : Bool :=
  st = "pending" || st = "in_progress" || st = "waiting"

/-- Rows satisfying the active-status predicate, in table order. -/
def activeRows (s : Store) : List Row :=
  (s : List Row).filter (fun r => isActiveStatus r.status)

/-- Stable insertion used to model SQLite's `ORDER BY priority ASC` (ties keep
table order, matching a full-scan sort). -/
def insByPriority (r : Row) : List Row → List Row
  | [] => [r]
  | x :: xs => if x.priority ≤ r.priority then x :: insByPriority r xs else r :: x :: xs

/-- Stable sort by ascending `priority` (`ORDER BY priority ASC`). -/
def sortRowsByPriority (l : List Row) : List Row :=
  l.foldl (fun acc r => insByPriority r acc) []

/-- `rows.map(row => Task.fromJSON(row))`: the first decode throw aborts. -/
def decodeRows (l : List Row) (now : String) : Except String (List Task) :=
  match l with
  | [] => .ok []
  | r :: rest =>
    match Task.fromJSON r now with
    | none => .error "Unexpected token in JSON"
    | some t =>
      match decodeRows rest now with
      | .error e => .error e
      | .ok ts => .ok (t :: ts)

/-- `TaskRepository.getAllActiveTasks()`: active rows ordered by priority,
decoded. -/
def getAllActiveTasks (s : Store) (now : String) : Except String (List Task) :=
  decodeRows (sortRowsByPriority (activeRows s)) now

/-- `TaskRepository.getTaskById(id)`: `.get` on `SELECT * WHERE id = ?` (first
matching row in table order), decoded; `ok none` is the not-found sentinel. -/
def getTaskById (s : Store) (tid now : String) : Except String (Option Task) :=
  match (s : List Row).find? (fun r => r.id = tid) with
  | none => .ok none
  | some r =>
    match Task.fromJSON r now with
    | none => .error "Unexpected token in JSON"
    | some t => .ok (some t)

/-- `SELECT MAX(priority) FROM tasks WHERE status = 'pending'` (`NULL`, i.e.
`none`, when no pending row exists). -/
def maxPendingPriority (s : Store) : Option Int :=
  ((s : List Row).filter (fun r => r.status = "pending")).foldl
    (fun acc r =>
      match acc with
      | none => some r.priority
      | some m => some (max m r.priority)) none

/-- `TaskRepository.createTask(content, scheduledFor)`: builds the task,
computes `(maxPriorityResult.maxPriority || -1) + 1` — note that JavaScript's
`||` also replaces a max of `0` by `-1` — applies `setPriority`, and inserts
one row.  Returns the task and the new table. -/
def createTask (s : Store) (content : String) (scheduledFor : Option String)
    (newId now : String) : Task × Store :=
  let task := newTask content scheduledFor newId now
  let maxPriority := maxPendingPriority s
  let jsOrMinusOne : Int :=
    match maxPriority with
    | none => -1
    | some m => if m = 0 then -1 else m
  let task := task.setPriority (jsOrMinusOne + 1) now
  (task, ((s : List Row) ++ [task.toRow] : List Row))

/-- `TaskRepository.updateTask(task)`: `UPDATE tasks SET content, priority,
status, completed_at, scheduled_for, updated_at, extracted_urls, tags WHERE
id = ?` — every matching row is rewritten; `created_at` is not touched. -/
def updateTask (s : Store) (t : Task) : Store :=
  ((s : List Row).map (fun r =>
    if r.id = t.id then
      { r with
        content := t.content
        priority := t.priority
        status := t.status
        completed_at := t.completedAt
        scheduled_for := t.scheduledFor
        updated_at := t.updatedAt
        extracted_urls := some (jsonEncodeStrings t.extractedUrls)
        tags := some (jsonEncodeStrings t.tags) }
    else r) : List Row)

/-- `TaskRepository.updateTaskContent(taskId, newContent)`: loads the task
(`ok none` when the id is absent), overwrites `content`, re-derives
`extractedUrls` and `tags`, bumps `updatedAt`, and performs the partial
`UPDATE tasks SET content, extracted_urls, tags, updated_at WHERE id = ?`.
There is no emptiness validation anywhere on this path. -/
def updateTaskContent (s : Store) (taskId newContent now : String) :
    Except String (Option Task × Store) :=
  match getTaskById s taskId now with
  | .error e => .error e
  | .ok none => .ok (none, s)
  | .ok (some task) =>
    let task := { task with
                  content := newContent
                  extractedUrls := extractUrls newContent
                  tags := extractTags newContent
                  updatedAt := now }
    let s' : Store := ((s : List Row).map (fun r =>
      if r.id = taskId then
        { r with
          content := task.content
          extracted_urls := some (jsonEncodeStrings task.extractedUrls)
          tags := some (jsonEncodeStrings task.tags)
          updated_at := task.updatedAt }
      else r) : List Row)
    .ok (some task, s')

/-- `Array.prototype.findIndex` returning `none` for `-1`. -/
def jsFindIndex (p : α → Bool) : List α → Option Nat
  | [] => none
  | a :: l => if p a then some 0 else (jsFindIndex p l).map (· + 1)

/-- Position of the task with id `x` in a task list (`0` as the default for
an absent id); used to state the effect of the reindex loop. -/
def idxOfId (l : List Task) (x : String) : Nat :=
  (jsFindIndex (fun t => t.id = x) l).getD 0

/-- `reorderedTasks.splice(currentIndex, 1)` followed by
`reorderedTasks.splice(newIndex, 0, movedTask)`. -/
def insertAtIdx (n : Nat) (a : α) : List α → List α
  | [] => [a]
  | x :: xs => if n = 0 then a :: x :: xs else x :: insertAtIdx (n - 1) a xs

/-- The reindex loop of `TaskRepository.moveTask`: `reorderedTasks.forEach((t,
index) => { t.setPriority(index); this.updateTask(t); })`, run inside one
transaction.  `k` is the running index. -/
def writeAll (s : Store) (ts : List Task) (k : Nat) (now : String) : Store :=
  match ts with
  | [] => s
  | t :: rest => writeAll (updateTask s (t.setPriority (k : Int) now)) rest (k + 1) now

/-- The row produced when the reindex loop writes task `t` at position `p`:
the `updateTask` full-row UPDATE applied to `t.setPriority(p)`. -/
def reindexedRow (r : Row) (t : Task) (p : Nat) (now : String) : Row :=
  { r with
    content := t.content
    priority := (p : Int)
    status := t.status
    completed_at := t.completedAt
    scheduled_for := t.scheduledFor
    updated_at := now
    extracted_urls := some (jsonEncodeStrings t.extractedUrls)
    tags := some (jsonEncodeStrings t.tags) }

/-- Row-level description of the whole reindex loop starting at index `k`:
each row keyed by some task of `ts` is rewritten at that task's position,
every other row is untouched. -/
def writePlan (ts : List Task) (k : Nat) (now : String) (r : Row) : Row :=
  match jsFindIndex (fun t => t.id = r.id) ts with
  | none => r
  | some i =>
    match ts.get? i with
    | none => r
    | some t => reindexedRow r t (k + i) now

/-- The clamped new index of `moveTask`: `Math.max(0, currentIndex - 1)` for
`'up'`, `Math.min(allTasks.length - 1, currentIndex + 1)` for `'down'`
(computed in `Int` because JavaScript's `currentIndex - 1` can be `-1`). -/
def moveNewIndex (direction : String) (currentIndex len : Nat) : Int :=
  if direction = "up" then max 0 ((currentIndex : Int) - 1)
  else min ((len : Int) - 1) ((currentIndex : Int) + 1)

/-- The store after `moveTask`'s transaction: the task is spliced from
`currentIndex` to the clamped new index and every task of the reordered list
is written back with its positional priority. -/
def moveWrite (s : Store) (allTasks : List Task) (currentIndex : Nat)
    (movedTask : Task) (direction now : String) : Store :=
  writeAll s
    (insertAtIdx (moveNewIndex direction currentIndex allTasks.length).toNat
      movedTask (allTasks.eraseIdx currentIndex))
    0 now

/-- `TaskRepository.moveTask(taskId, direction)` from
`src/storage/taskRepository.js`: not-found or completed ids give the `null`
sentinel; the new index is clamped to `[0, activeCount-1]`; an unchanged index
returns the loaded task with no writes; otherwise the task is spliced to the
new index (`moveWrite`), every active task's priority is rewritten to its
position inside one transaction, and the task is reloaded.  A direction other
than `'up'`/`'down'` returns the `null` sentinel. -/
def moveTask (s : Store) (taskId direction now : String) :
    Except String (Option Task × Store) :=
  match getTaskById s taskId now with
  | .error e => .error e
  | .ok none => .ok (none, s)
  | .ok (some task) =>
    if task.status = "completed" then .ok (none, s)
    else
      match getAllActiveTasks s now with
      | .error e => .error e
      | .ok allTasks =>
        match jsFindIndex (fun t => t.id = taskId) allTasks with
        | none => .ok (none, s)
        | some currentIndex =>
          if direction = "up" ∨ direction = "down" then
            if moveNewIndex direction currentIndex allTasks.length = (currentIndex : Int)
            then .ok (some task, s)
            else
              match allTasks.get? currentIndex with
              | none => .ok (none, s)
              | some movedTask =>
                match getTaskById (moveWrite s allTasks currentIndex movedTask direction now)
                    taskId now with
                | .error e => .error e
                | .ok r => .ok (r, moveWrite s allTasks currentIndex movedTask direction now)
          else .ok (none, s)

/-- Database state for `DatabaseManager`: the `tasks` table plus the
`user_version` pragma used to gate migrations. -/
structure Db where
  rows : Store
  version : Nat
deriving DecidableEq

/-- The migration-v2 selection predicate:
`tags IS NULL OR tags = '' OR tags = '[]'`. -/
def needsWorkTags (r : Row) : Bool :=
  r.tags = none || r.tags = some "" || r.tags = some "[]"

/-- `/#\w+/.test(content)`: does the content contain a `#` immediately
followed by a word character? -/
def hasHashWord : List Char → Bool
  | [] => false
  | '#' :: c :: rest => isWordChar c || hasHashWord (c :: rest)
  | _ :: rest => hasHashWord rest

/-- The per-row content rewrite of migration v2: append `' #work'` only when
the content has no hashtag at all. -/
def migrateRowContent (content : String) : String :=
  if hasHashWord content.toList then content else content ++ " #work"

/-- `DatabaseManager.migrate()` from `src/storage/database.js`: reads
`user_version` once; v1 only alters the schema (already present in this
model); v2 selects every row with `tags` NULL / `''` / `'[]'` and rewrites it
(backfilled `['work']` tags, conditional `' #work'` content suffix, fresh
`updated_at`) in one transaction, then sets `user_version = 2`. -/
def migrate (db : Db) (now : String) : Db :=
  let currentVersion := db.version
  let rows2 :=
    if currentVersion < 2 then
      let tasksNeedingTags := (db.rows : List Row).filter needsWorkTags
      tasksNeedingTags.foldl
        (fun acc task =>
          ((acc : List Row).map (fun r =>
            if r.id = task.id then
              { r with
                content := migrateRowContent task.content
                tags := some (jsonEncodeStrings ["work"])
                updated_at := now }
            else r) : Store))
        db.rows
    else db.rows
  { rows := rows2, version := if currentVersion < 2 then 2 else currentVersion }

/-! ### Concrete stores used by witnesses and counterexamples -/

/-- A single pending task as created by the repository. -/
def exRowC1 : Row :=
  { id := "t1", content := "hello #work", priority := 0, status := "pending",
    created_at := "2024-01-01T00:00:00.000Z", completed_at := none, scheduled_for := none,
    updated_at := "2024-01-01T00:00:00.000Z", extracted_urls := some "[]",
    tags := some "[\"work\"]" }

/-- The same row after `updateTaskContent(_, "")` has run. -/
def exRowC1' : Row :=
  { id := "t1", content := "", priority := 0, status := "pending",
    created_at := "2024-01-01T00:00:00.000Z", completed_at := none, scheduled_for := none,
    updated_at := "2024-01-02T00:00:00.000Z", extracted_urls := some "[]",
    tags := some "[]" }

/-- The task object returned by `updateTaskContent(_, "")`. -/
def exTaskC1 : Task :=
  { id := "t1", content := "", priority := 0, status := "pending",
    createdAt := "2024-01-02T00:00:00.000Z", completedAt := none, scheduledFor := none,
    updatedAt := "2024-01-02T00:00:00.000Z", extractedUrls := [], tags := [] }

/-- A store holding exactly one pending task whose priority is `0`. -/
def exRowC2 : Row :=
  { id := "t1", content := "first task", priority := 0, status := "pending",
    created_at := "T1", completed_at := none, scheduled_for := none,
    updated_at := "T1", extracted_urls := some "[]", tags := some "[]" }

/-- A store holding one pending task whose priority is `2`. -/
def exRowC2b : Row :=
  { id := "p", content := "p task", priority := 2, status := "pending",
    created_at := "T0", completed_at := none, scheduled_for := none,
    updated_at := "T0", extracted_urls := some "[]", tags := some "[]" }

/-- A pending task used by the `updateTaskContent` witnesses. -/
def exRowC3 : Row :=
  { id := "e1", content := "old note", priority := 0, status := "pending",
    created_at := "T0", completed_at := none, scheduled_for := none,
    updated_at := "T0", extracted_urls := some "[]", tags := some "[]" }

/-- The task returned by `updateTaskContent("e1", "note #b")` on `[exRowC3]`. -/
def exTaskC3' : Task :=
  { id := "e1", content := "note #b", priority := 0, status := "pending",
    createdAt := "T5", completedAt := none, scheduledFor := none,
    updatedAt := "T5", extractedUrls := [], tags := ["b"] }

/-- The `exRowC3` row after that update. -/
def exRowC3' : Row :=
  { id := "e1", content := "note #b", priority := 0, status := "pending",
    created_at := "T0", completed_at := none, scheduled_for := none,
    updated_at := "T5", extracted_urls := some "[]", tags := some "[\"b\"]" }

/-- First of two pending tasks, priorities `0` and `1`. -/
def exRowA : Row :=
  { id := "a", content := "task a", priority := 0, status := "pending",
    created_at := "T0", completed_at := none, scheduled_for := none,
    updated_at := "T0", extracted_urls := some "[]", tags := some "[]" }

/-- Second of two pending tasks, priorities `0` and `1`. -/
def exRowB : Row :=
  { id := "b", content := "task b", priority := 1, status := "pending",
    created_at := "T0", completed_at := none, scheduled_for := none,
    updated_at := "T0", extracted_urls := some "[]", tags := some "[]" }

/-- The store after `moveTask("b", "up")` on `[exRowA, exRowB]`. -/
def exStoreMoved : Store :=
  [{ id := "a", content := "task a", priority := 1, status := "pending",
     created_at := "T0", completed_at := none, scheduled_for := none,
     updated_at := "T9", extracted_urls := some "[]", tags := some "[]" },
   { id := "b", content := "task b", priority := 0, status := "pending",
     created_at := "T0", completed_at := none, scheduled_for := none,
     updated_at := "T9", extracted_urls := some "[]", tags := some "[]" }]

/-- The decoded form of `exRowA` at decode time `"T9"`. -/
def exTaskA : Task :=
  { id := "a", content := "task a", priority := 0, status := "pending",
    createdAt := "T9", completedAt := none, scheduledFor := none,
    updatedAt := "T9", extractedUrls := [], tags := [] }

/-- The decoded form of `exRowB` at decode time `"T9"`. -/
def exTaskB : Task :=
  { id := "b", content := "task b", priority := 1, status := "pending",
    createdAt := "T9", completedAt := none, scheduledFor := none,
    updatedAt := "T9", extractedUrls := [], tags := [] }

/-- The task returned by `moveTask("b", "up")` on `[exRowA, exRowB]`. -/
def exTaskBMoved : Task :=
  { id := "b", content := "task b", priority := 0, status := "pending",
    createdAt := "T9", completedAt := none, scheduledFor := none,
    updatedAt := "T9", extractedUrls := [], tags := [] }

/-- A completed row with every nullable column populated. -/
def exRowC10 : Row :=
  { id := "t10", content := "old words #keep", priority := 5, status := "completed",
    created_at := "2023-12-31T00:00:00.000Z", completed_at := some "2024-01-01T00:00:00.000Z",
    scheduled_for := some "2024-02-02", updated_at := "2023-12-31T00:00:00.000Z",
    extracted_urls := some "[]", tags := some "[\"keep\"]" }

/-- The task returned by `updateTaskContent(_, "new words")` on `exRowC10`. -/
def exTaskC10 : Task :=
  { id := "t10", content := "new words", priority := 5, status := "completed",
    createdAt := "2024-06-01T00:00:00.000Z", completedAt := none, scheduledFor := none,
    updatedAt := "2024-06-01T00:00:00.000Z", extractedUrls := [], tags := [] }

/-- The `exRowC10` row after that update. -/
def exRowC10' : Row :=
  { id := "t10", content := "new words", priority := 5, status := "completed",
    created_at := "2023-12-31T00:00:00.000Z", completed_at := some "2024-01-01T00:00:00.000Z",
    scheduled_for := some "2024-02-02", updated_at := "2024-06-01T00:00:00.000Z",
    extracted_urls := some "[]", tags := some "[]" }

/-- A legacy row with no recorded tags whose content does contain a hashtag. -/
def exRowC8 : Row :=
  { id := "t8", content := "call mom #family", priority := 0, status := "pending",
    created_at := "T0", completed_at := none, scheduled_for := none,
    updated_at := "T0", extracted_urls := none, tags := none }

/-- Legacy row for migration: `tags` NULL, content already has a hashtag. -/
def exRowC9 : Row :=
  { id := "m1", content := "fix #bug now", priority := 0, status := "pending",
    created_at := "T0", completed_at := none, scheduled_for := none,
    updated_at := "T0", extracted_urls := none, tags := none }

/-- Legacy row for migration: empty-array tags, content with no hashtag. -/
def exRowC9b : Row :=
  { id := "m2", content := "plain task", priority := 1, status := "pending",
    created_at := "T0", completed_at := none, scheduled_for := none,
    updated_at := "T0", extracted_urls := none, tags := some "[]" }

/-! ### Theorems -/

/-- With duplicate-free ids (the PRIMARY KEY invariant of the `tasks` table),
two rows of the table sharing an id are the same row. -/
theorem row_eq_of_id_eq {l : List Row} (h : (l.map Row.id).Nodup) {a b : Row}
    (ha : a ∈ l) (hb : b ∈ l) (hid : a.id = b.id) : a = b :=
  List.inj_on_of_nodup_map h ha hb hid

/-- With duplicate-free ids, `find?` by a member's id returns that member. -/
theorem find?_id_of_mem {l : List Row} (h : (l.map Row.id).Nodup) {r : Row}
    (hr : r ∈ l) : l.find? (fun x => x.id = r.id) = some r := by
  induction l with
  | nil => cases hr
  | cons a t ih =>
    by_cases ha : a.id = r.id
    · have : a = r := row_eq_of_id_eq h (List.mem_cons_self a t) hr ha
      subst this
      simp [List.find?]
    · have hrt : r ∈ t := by
        rcases List.mem_cons.mp hr with h1 | h1
        · exact absurd (h1 ▸ rfl) ha
        · exact h1
      have := ih (List.Nodup.of_cons (by simpa using h)) hrt
      simp only [List.find?, decide_eq_false ha]
      exact this

/-- Claim C1 (code_bug evidence).  `updateTaskContent` accepts empty content:
on a store holding one pending task, `updateTaskContent(id, "")` does not
raise any error — it returns the task with content overwritten to `""` and
rewrites the stored row (content `""`, tags backfilled to `[]`), whereas the
specification and the repository's own test
(`test/storage/taskRepository.test.js`) demand an `EmptyContent` throw with
the row left unchanged. -/
theorem claim_C1_updateTaskContent_accepts_empty_content :
    updateTaskContent [exRowC1] "t1" "" "2024-01-02T00:00:00.000Z" =
      .ok (some exTaskC1, [exRowC1']) ∧ exRowC1'.content = "" ∧ exRowC1' ≠ exRowC1 := by
  refine ⟨by rfl, by rfl, by decide⟩

/-- Claim C10 (code_bug evidence).  On a completed task with every nullable
column populated, a successful `updateTaskContent` leaves the persisted row's
`id`, `priority`, `status`, `created_at`, `completed_at` and `scheduled_for`
untouched, but the *returned* `Task` does not carry the stored `createdAt`,
`completedAt` or `scheduledFor`: `Task.fromJSON` spreads the snake_case row
into camelCase constructor parameters, so those fields come back as the
decode-time defaults (`now`, `null`, `null`). -/
theorem claim_C10_update_frame_eval :
    updateTaskContent [exRowC10] "t10" "new words" "2024-06-01T00:00:00.000Z" =
        .ok (some exTaskC10, [exRowC10']) ∧
      exTaskC10.id = exRowC10.id ∧ exTaskC10.priority = exRowC10.priority ∧
      exTaskC10.status = exRowC10.status ∧
      exRowC10'.id = exRowC10.id ∧ exRowC10'.priority = exRowC10.priority ∧
      exRowC10'.status = exRowC10.status ∧
      exRowC10'.created_at = exRowC10.created_at ∧
      exRowC10'.completed_at = exRowC10.completed_at ∧
      exRowC10'.scheduled_for = exRowC10.scheduled_for ∧
      exRowC10'.content = "new words" ∧
      exTaskC10.createdAt ≠ exRowC10.created_at ∧
      exTaskC10.completedAt ≠ exRowC10.completed_at ∧
      exTaskC10.scheduledFor ≠ exRowC10.scheduled_for := by
  refine ⟨by rfl, rfl, rfl, rfl, rfl, rfl, rfl, rfl, rfl, rfl, rfl, by decide, by decide,
    by decide⟩

/-- Claim C2 (counterexample).  On a store holding exactly one pending task of
priority `0`, `createTask` assigns the new task priority `0`, not
`1 + 0 = 1`: JavaScript's `maxPriorityResult.maxPriority || -1` treats the
max of `0` as falsy and replaces it by `-1`. -/
theorem claim_C2_counterexample :
    maxPendingPriority [exRowC2] = some 0 ∧
      (createTask [exRowC2] "second task" none "id-2" "T2").1.priority = 0 ∧
      (0 : Int) ≠ 1 + 0 := by
  refine ⟨by rfl, by rfl, by decide⟩

/-- Claim C2 (amended).  `createTask` assigns priority
`(max pending priority || -1) + 1`: `0` when no pending task exists, `m + 1`
when the maximum pending priority `m` is nonzero, but also `0` (not `1`) when
the maximum pending priority is `0`, because `||` treats `0` as falsy.  The
new task is persisted by appending its row to the table. -/
theorem claim_C2_amended_createTask_priority (s : Store) (content : String)
    (scheduledFor : Option String) (newId now : String) :
    (maxPendingPriority s = none →
      (createTask s content scheduledFor newId now).1.priority = 0) ∧
    (maxPendingPriority s = some 0 →
      (createTask s content scheduledFor newId now).1.priority = 0) ∧
    (∀ m : Int, maxPendingPriority s = some m → m ≠ 0 →
      (createTask s content scheduledFor newId now).1.priority = m + 1) ∧
    (createTask s content scheduledFor newId now).2 =
      s ++ [(createTask s content scheduledFor newId now).1.toRow] := by
  refine ⟨?_, ?_, ?_, ?_⟩
  · intro h; simp [createTask, h, Task.setPriority]
  · intro h; simp [createTask, h, Task.setPriority]
  · intro m h hm; simp [createTask, h, hm, Task.setPriority]
  · rfl

/-- Claim C2 (witness): on a store whose only pending task has priority `2`,
the created task receives priority `3`, and the row is appended. -/
theorem claim_C2_witness :
    maxPendingPriority [exRowC2b] = some 2 ∧ (2 : Int) ≠ 0 ∧
      (createTask [exRowC2b] "next" none "id-9" "T3").1.priority = 2 + 1 ∧
      (createTask [exRowC2b] "next" none "id-9" "T3").2 =
        [exRowC2b] ++ [(createTask [exRowC2b] "next" none "id-9" "T3").1.toRow] :=
  ⟨by rfl, by decide,
    (claim_C2_amended_createTask_priority [exRowC2b] "next" none "id-9" "T3").2.2.1 2
      (by rfl) (by decide),
    (claim_C2_amended_createTask_priority [exRowC2b] "next" none "id-9" "T3").2.2.2⟩

/-- Claim C4.  `Task.setStatus` succeeds exactly when the new status is one of
the four enum values (so all 4×4 transitions, including self-transitions, are
legal for any current status); on success it sets `status`, bumps
`updatedAt`, sets `completedAt` to now when completing and clears any
previously set (non-degenerate) `completedAt` otherwise, leaving `id`,
`content`, `priority`, `createdAt` and `scheduledFor` untouched. -/
theorem claim_C4_setStatus (t : Task) (st now : String)
    (hwf : t.completedAt ≠ some "") :
    ((∃ t', Task.setStatus t st now = .ok t') ↔ st ∈ STATUS_VALUES) ∧
    (∀ t', Task.setStatus t st now = .ok t' →
      t'.status = st ∧ t'.updatedAt = now ∧
      t'.id = t.id ∧ t'.content = t.content ∧ t'.priority = t.priority ∧
      t'.createdAt = t.createdAt ∧ t'.scheduledFor = t.scheduledFor ∧
      (st = "completed" → t'.completedAt = some now) ∧
      (st ≠ "completed" → t'.completedAt = none)) := by
  by_cases hmem : st ∈ STATUS_VALUES
  · have hc : STATUS_VALUES.contains st = true := List.elem_eq_true_of_mem hmem
    constructor
    · exact ⟨fun _ => hmem, fun _ => ⟨_, by unfold Task.setStatus; rw [if_pos hc]⟩⟩
    · intro t' ht'
      simp only [Task.setStatus, hc, if_true, Except.ok.injEq] at ht'
      subst ht'
      refine ⟨rfl, rfl, rfl, rfl, rfl, rfl, rfl, ?_, ?_⟩
      · intro hcomp; simp [hcomp]
      · intro hcomp
        simp only [if_neg hcomp]
        rcases hx : t.completedAt with _ | s
        · simp [jsTruthyStr]
        · have hs : s ≠ "" := fun he => hwf (by rw [hx, he])
          simp [jsTruthyStr, hs]
  · have hc : STATUS_VALUES.contains st = false := by
      rcases hx : STATUS_VALUES.contains st with _ | _
      · rfl
      · exact absurd (List.mem_of_elem_eq_true hx) hmem
    constructor
    · constructor
      · rintro ⟨t', ht'⟩
        simp only [Task.setStatus, hc, Bool.false_eq_true, if_false] at ht'
        cases ht'
      · intro h; exact absurd h hmem
    · intro t' ht'
      simp only [Task.setStatus, hc, Bool.false_eq_true, if_false] at ht'
      cases ht'

/-- Claim C4 (witness): a freshly decoded pending task can be moved to
`in_progress` (and, per the main theorem, to any of the four statuses). -/
theorem claim_C4_witness :
    (taskOfRow exRowA "T1").completedAt ≠ some "" ∧
      (∃ t', Task.setStatus (taskOfRow exRowA "T1") "in_progress" "T2" = .ok t') :=
  ⟨by decide,
    ((claim_C4_setStatus (taskOfRow exRowA "T1") "in_progress" "T2" (by decide)).1).mpr
      (by decide)⟩

/-- Claim C8 (counterexample).  A stored row whose `tags` and `extracted_urls`
fields are both NULL does *not* decode to empty sequences: the constructor
re-derives both from `content`, so this row decodes with `tags = ["family"]`.
The claim's "the decoded task's corresponding sequence is the empty sequence"
is therefore false. -/
theorem claim_C8_counterexample :
    exRowC8.tags = none ∧
      (Task.fromJSON exRowC8 "T1").map Task.tags = some ["family"] ∧
      some (["family"] : List String) ≠ some ([] : List String) := by
  refine ⟨rfl, by rfl, by decide⟩

/-- Claim C3.  Whenever `updateTaskContent` succeeds with a task (the id
existed), the returned task's `content` is the new content and its
`extractedUrls` / `tags` are exactly the re-derivations of the new content;
every persisted row with that id carries the new content, the JSON encodings
of those same re-derivations, and the fresh `updated_at` — no stale derived
data survives the edit. -/
theorem claim_C3_updateTaskContent_rederives (s : Store) (tid c2 now : String)
    (t : Task) (s' : Store) (hc : c2 ≠ "")
    (h : updateTaskContent s tid c2 now = .ok (some t, s')) :
    t.content = c2 ∧ t.extractedUrls = extractUrls c2 ∧ t.tags = extractTags c2 ∧
      ∀ r ∈ s', r.id = tid →
        r.content = c2 ∧ r.extracted_urls = some (jsonEncodeStrings (extractUrls c2)) ∧
        r.tags = some (jsonEncodeStrings (extractTags c2)) ∧ r.updated_at = now := by
  unfold updateTaskContent at h
  rcases hg : getTaskById s tid now with e | o
  · rw [hg] at h; cases h
  · rw [hg] at h
    rcases o with _ | task
    · cases h
    · simp only [Except.ok.injEq, Prod.mk.injEq, Option.some.injEq] at h
      obtain ⟨ht, hs⟩ := h
      subst ht
      subst hs
      refine ⟨rfl, rfl, rfl, ?_⟩
      intro r hr hid
      obtain ⟨r0, hr0, hfr0⟩ := List.mem_map.mp hr
      by_cases h0 : r0.id = tid
      · rw [if_pos h0] at hfr0
        subst hfr0
        exact ⟨rfl, rfl, rfl, rfl⟩
      · rw [if_neg h0] at hfr0
        subst hfr0
        exact absurd hid h0

/-- Claim C3 (witness): editing the one stored task to `"note #b"` re-derives
`tags = ["b"]` in the returned task and stores `'["b"]'` in the row. -/
theorem claim_C3_witness :
    ("note #b" : String) ≠ "" ∧
      exTaskC3'.content = "note #b" ∧
      exTaskC3'.extractedUrls = extractUrls "note #b" ∧
      exTaskC3'.tags = extractTags "note #b" ∧
      ∀ r ∈ [exRowC3'], r.id = "e1" →
        r.content = "note #b" ∧
        r.extracted_urls = some (jsonEncodeStrings (extractUrls "note #b")) ∧
        r.tags = some (jsonEncodeStrings (extractTags "note #b")) ∧
        r.updated_at = "T5" :=
  ⟨by decide, by
    have := claim_C3_updateTaskContent_rederives [exRowC3] "e1" "note #b" "T5"
      exTaskC3' [exRowC3'] (by decide) (by rfl)
    exact this⟩

/-- Every `\w` character lower-cases (via `Char.toLower`) into the class
`[a-z0-9_]`. -/
theorem isLowerTagChar_jsToLower (c : Char) (h : isWordChar c = true) :
    isLowerTagChar (jsToLower c) = true := by
  have hv : ∀ n : Nat, n < 55296 → (Char.ofNat n).toNat = n := by
    intro n hn
    have hvalid : n.isValidChar := Or.inl hn
    rw [Char.ofNat, dif_pos hvalid]
    show (UInt32.mk (BitVec.ofNatLt n _)).toNat = n
    simp [UInt32.toNat, BitVec.toNat_ofNatLt]
  simp only [isWordChar, Bool.or_eq_true, Bool.and_eq_true, decide_eq_true_eq] at h
  unfold jsToLower Char.toLower
  by_cases hrange : c.toNat ≥ 65 ∧ c.toNat ≤ 90
  · rw [if_pos hrange]
    have := hv (c.toNat + 32) (by omega)
    simp only [isLowerTagChar, this, Bool.or_eq_true, Bool.and_eq_true,
      decide_eq_true_eq]
    omega
  · rw [if_neg hrange]
    simp only [isLowerTagChar, Bool.or_eq_true, Bool.and_eq_true, decide_eq_true_eq]
    omega

/-- Every character run emitted by the tag scanner is nonempty and consists
only of `[a-z0-9_]` characters (the lower-casing of a `\w` run). -/
theorem tagScanAux_sound (fuel : Nat) :
    ∀ (l cs : List Char), cs ∈ tagScanAux fuel l →
      cs ≠ [] ∧ ∀ c ∈ cs, isLowerTagChar c = true := by
  induction fuel with
  | zero => intro l cs h; simp [tagScanAux] at h
  | succ fuel ih =>
    intro l cs h
    cases l with
    | nil => simp [tagScanAux] at h
    | cons c0 rest =>
      simp only [tagScanAux] at h
      by_cases hc0 : c0 = '#'
      · rw [if_pos hc0] at h
        by_cases hrun : (rest.takeWhile isWordChar).isEmpty
        · rw [if_pos hrun] at h
          exact ih rest cs h
        · rw [if_neg hrun] at h
          rcases List.mem_cons.mp h with hcs | hcs
          · subst hcs
            refine ⟨?_, ?_⟩
            · intro hemp
              cases hx : rest.takeWhile isWordChar with
              | nil => rw [hx] at hrun; exact hrun rfl
              | cons a t => rw [hx] at hemp; cases hemp
            · intro c hcmem
              obtain ⟨c1, hc1, hc1e⟩ := List.mem_map.mp hcmem
              have hw : isWordChar c1 = true :=
                List.all_eq_true.mp List.all_takeWhile c1 hc1
              exact hc1e ▸ isLowerTagChar_jsToLower c1 hw
          · exact ih _ cs hcs
      · rw [if_neg hc0] at h
        exact ih rest cs h

/-- Claim C7.  Every tag produced by `extractTags` is a nonempty token over
`[a-z0-9_]` (the lower-casing of the word-character run following a `#`), and
on the spec's scenarios the function returns exactly the expected tokens in
left-to-right order with duplicates preserved: `#valid-tag` is cut at the
word boundary to `valid`, the digit-leading `#123invalid` is extracted
verbatim, `#valid_underscore` keeps its underscore, mixed-case hashtags are
lower-cased, and repeated hashtags appear once per occurrence. -/
theorem claim_C7_extractTags :
    (∀ C : String, ∀ tag ∈ extractTags C,
        tag ≠ "" ∧ ∀ c ∈ tag.toList, isLowerTagChar c = true) ∧
      extractTags "Task with #valid-tag and #123invalid and #valid_underscore" =
        ["valid", "123invalid", "valid_underscore"] ∧
      extractTags "Important task #Work #URGENT #Personal" =
        ["work", "urgent", "personal"] ∧
      extractTags "do #Work then #work again #work" = ["work", "work", "work"] := by
  refine ⟨?_, by rfl, by rfl, by rfl⟩
  intro C tag h
  obtain ⟨cs, hcs, he⟩ := List.mem_map.mp h
  obtain ⟨hne, hall⟩ := tagScanAux_sound _ _ cs hcs
  subst he
  constructor
  · intro hemp
    exact hne (congrArg String.toList hemp)
  · intro c hc
    exact hall c hc

/-- Claim C7 (witness): the tag `"work"` extracted from `"go #Work"` is a
nonempty `[a-z0-9_]` token. -/
theorem claim_C7_witness :
    ("work" ∈ extractTags "go #Work") ∧ ("work" : String) ≠ "" ∧
      ∀ c ∈ ("work" : String).toList, isLowerTagChar c = true :=
  ⟨by decide, (claim_C7_extractTags.1 "go #Work" "work" (by decide)).1,
    (claim_C7_extractTags.1 "go #Work" "work" (by decide)).2⟩

/-- Claim C8 (amended).  `Task.fromJSON` succeeds on every row whose `tags`
field is absent/NULL, the empty string, or the serialized empty array — no
error is raised — and the decoded task's `extractedUrls` and `tags` are the
re-derivation of the row's `content` (so they are empty exactly when the
content yields nothing), not unconditionally empty: the constructor ignores
the stored values. -/
theorem claim_C8_amended_fromJSON (r : Row) (now : String)
    (h : r.tags = none ∨ r.tags = some "" ∨ r.tags = some "[]") :
    Task.fromJSON r now = some (taskOfRow r now) ∧
      (taskOfRow r now).extractedUrls = extractUrls r.content ∧
      (taskOfRow r now).tags = extractTags r.content := by
  refine ⟨?_, rfl, rfl⟩
  rcases h with h | h | h
  · simp [Task.fromJSON, h]
  · simp [Task.fromJSON, h]
  · have hp : jsonParseStringArray "[]" = some [] := rfl
    simp [Task.fromJSON, h, hp]

/-- Claim C8 (witness): a row with `tags = '[]'` decodes without error, with
both sequences re-derived from its content. -/
theorem claim_C8_witness :
    Task.fromJSON exRowC9b "T1" = some (taskOfRow exRowC9b "T1") ∧
      (taskOfRow exRowC9b "T1").extractedUrls = extractUrls exRowC9b.content ∧
      (taskOfRow exRowC9b "T1").tags = extractTags exRowC9b.content :=
  claim_C8_amended_fromJSON exRowC9b "T1" (Or.inr (Or.inr rfl))

/-- The fold of per-row `UPDATE ... WHERE id = task.id` statements performed by
migration v2, characterised as one map over the table when the selected rows
have duplicate-free ids. -/
theorem migrate_fold_eq (now : String) (sel : List Row)
    (hnd : (sel.map Row.id).Nodup) (acc : List Row) :
    sel.foldl
        (fun acc task =>
          acc.map (fun r =>
            if r.id = task.id then
              { r with
                content := migrateRowContent task.content
                tags := some (jsonEncodeStrings ["work"])
                updated_at := now }
            else r)) acc =
      acc.map (fun r =>
        match sel.find? (fun t => t.id = r.id) with
        | some t =>
          { r with
            content := migrateRowContent t.content
            tags := some (jsonEncodeStrings ["work"])
            updated_at := now }
        | none => r) := by
  induction sel generalizing acc with
  | nil => simp
  | cons t rest ih =>
    have hnd2 : (t.id :: rest.map Row.id).Nodup := by simpa using hnd
    have hnd' : (rest.map Row.id).Nodup := (List.nodup_cons.mp hnd2).2
    have hnotin : t.id ∉ rest.map Row.id := (List.nodup_cons.mp hnd2).1
    rw [List.foldl_cons, ih hnd', List.map_map]
    apply congrArg (acc.map ·)
    funext r
    by_cases hid : r.id = t.id
    · have hfind : rest.find? (fun x => x.id = r.id) = none := by
        rw [List.find?_eq_none]
        intro x hx
        simp only [decide_eq_true_eq]
        intro hxe
        exact hnotin (hid ▸ hxe ▸ List.mem_map_of_mem Row.id hx)
      have hdec : (decide (t.id = r.id)) = true := decide_eq_true hid.symm
      simp only [Function.comp_apply, if_pos hid, List.find?_cons, hdec, hfind]
    · have hdec : (decide (t.id = r.id)) = false :=
        decide_eq_false (fun he => hid he.symm)
      simp only [Function.comp_apply, if_neg hid, List.find?_cons, hdec]

/-- Under the PRIMARY KEY invariant, the v2 migration of a sub-v2 database
rewrites exactly the rows selected by `needsWorkTags`, each from its own
content. -/
theorem migrate_rows_eq (db : Db) (now : String)
    (hnd : (db.rows.map Row.id).Nodup) (hv : db.version < 2) :
    (migrate db now).rows = db.rows.map (fun r =>
      if needsWorkTags r then
        { r with
          content := migrateRowContent r.content
          tags := some (jsonEncodeStrings ["work"])
          updated_at := now }
      else r) := by
  have hndf : ((db.rows.filter needsWorkTags).map Row.id).Nodup :=
    List.Sublist.nodup (List.Sublist.map Row.id (List.filter_sublist _)) hnd
  unfold migrate
  simp only [if_pos hv]
  rw [migrate_fold_eq now _ hndf db.rows]
  apply List.map_congr_left
  intro r hr
  by_cases hw : needsWorkTags r
  · have hrf : r ∈ db.rows.filter needsWorkTags := List.mem_filter.mpr ⟨hr, hw⟩
    rw [find?_id_of_mem hndf hrf]
    simp [hw]
  · have hfind : (db.rows.filter needsWorkTags).find? (fun t => t.id = r.id) = none := by
      rw [List.find?_eq_none]
      intro x hx
      simp only [decide_eq_true_eq]
      intro hxe
      have hxr : x = r :=
        row_eq_of_id_eq hnd (List.mem_of_mem_filter hx) hr hxe
      exact hw (hxr ▸ (List.mem_filter.mp hx).2)
    rw [hfind]
    simp [hw]

/-- A database already at version 2 or later is untouched by `migrate`. -/
theorem migrate_of_version_ge (db : Db) (now : String) (h : ¬ db.version < 2) :
    migrate db now = db := by
  unfold migrate
  simp only [if_neg h]

/-- Claim C9 (amended).  On a database below schema version 2 (with the
PRIMARY KEY invariant), the forward migration rewrites exactly the rows whose
`tags` field is NULL, empty, or the empty JSON array: each gets
`tags = ["work"]` and a fresh `updated_at`, and `" #work"` is appended to its
content *only when the content contains no hashtag* (`/#\w+/` fails); all
other rows are unchanged.  The `user_version` counter is then set to 2, so a
second `migrate` run is the identity — the migration runs at most once. -/
theorem claim_C9_amended_migrate (db : Db) (now now2 : String)
    (hnd : (db.rows.map Row.id).Nodup) (hv : db.version < 2) :
    (migrate db now).rows = db.rows.map (fun r =>
        if needsWorkTags r then
          { r with
            content := migrateRowContent r.content
            tags := some (jsonEncodeStrings ["work"])
            updated_at := now }
        else r) ∧
      (migrate db now).version = 2 ∧
      migrate (migrate db now) now2 = migrate db now := by
  have hver : (migrate db now).version = 2 := by
    unfold migrate
    simp [if_pos hv]
  refine ⟨migrate_rows_eq db now hnd hv, hver, ?_⟩
  exact migrate_of_version_ge _ now2 (by omega)

/-- Claim C9 (witness): migrating the two-row version-0 database backfills
`['work']` everywhere, appends `" #work"` only to the hashtag-free row, and a
second run changes nothing. -/
theorem claim_C9_witness :
    (migrate { rows := [exRowC9, exRowC9b], version := 0 } "TM").rows =
        [exRowC9, exRowC9b].map (fun r =>
          if needsWorkTags r then
            { r with
              content := migrateRowContent r.content
              tags := some (jsonEncodeStrings ["work"])
              updated_at := "TM" }
          else r) ∧
      (migrate { rows := [exRowC9, exRowC9b], version := 0 } "TM").version = 2 ∧
      migrate (migrate { rows := [exRowC9, exRowC9b], version := 0 } "TM") "TN" =
        migrate { rows := [exRowC9, exRowC9b], version := 0 } "TM" :=
  claim_C9_amended_migrate { rows := [exRowC9, exRowC9b], version := 0 } "TM" "TN"
    (by decide) (by decide)

/-- Claim C9 (counterexample).  Migrating a version-0 database holding one row
with NULL `tags` whose content already contains a hashtag backfills
`tags = ["work"]` but does *not* append `" #work"` to the content — the code
appends only when `/#\w+/` does not match, contradicting the claim's
unconditional append. -/
theorem claim_C9_counterexample :
    (migrate { rows := [exRowC9], version := 0 } "TM").rows.map Row.content =
        ["fix #bug now"] ∧
      (migrate { rows := [exRowC9], version := 0 } "TM").rows.map Row.tags =
        [some "[\"work\"]"] ∧
      ("fix #bug now" : String) ≠ "fix #bug now" ++ " #work" := by
  refine ⟨by rfl, by rfl, by decide⟩

/-! ### Permutation and decoding lemmas for `moveTask` -/

/-- Stable insertion inserts, up to permutation. -/
theorem insByPriority_perm (r : Row) (acc : List Row) :
    List.Perm (insByPriority r acc) (r :: acc) := by
  induction acc with
  | nil => exact List.Perm.refl _
  | cons x xs ih =>
    unfold insByPriority
    by_cases hle : x.priority ≤ r.priority
    · rw [if_pos hle]
      exact (ih.cons x).trans (List.Perm.swap r x xs)
    · rw [if_neg hle]

/-- The modelled `ORDER BY priority ASC` is a permutation of the table. -/
theorem sortRowsByPriority_perm (l : List Row) : List.Perm (sortRowsByPriority l) l := by
  have key : ∀ (l acc : List Row),
      List.Perm (l.foldl (fun acc r => insByPriority r acc) acc) (l ++ acc) := by
    intro l
    induction l with
    | nil => intro acc; simpa using List.Perm.refl acc
    | cons r rest ih =>
      intro acc
      rw [List.foldl_cons]
      refine (ih (insByPriority r acc)).trans ?_
      refine (List.Perm.append_left rest (insByPriority_perm r acc)).trans ?_
      exact List.perm_middle
  have := key l []
  simpa [sortRowsByPriority] using this

/-- `splice(n, 0, a)` inserts, up to permutation. -/
theorem insertAtIdx_perm (a : α) : ∀ (n : Nat) (l : List α),
    List.Perm (insertAtIdx n a l) (a :: l) := by
  intro n l
  induction l generalizing n with
  | nil => exact List.Perm.refl _
  | cons x xs ih =>
    unfold insertAtIdx
    by_cases hn : n = 0
    · rw [if_pos hn]
    · rw [if_neg hn]
      exact ((ih (n - 1)).cons x).trans (List.Perm.swap a x xs)

/-- Removing the element at a valid index and re-consing it is a permutation. -/
theorem cons_eraseIdx_perm : ∀ (l : List α) (i : Nat) (a : α),
    l.get? i = some a → List.Perm (a :: l.eraseIdx i) l := by
  intro l
  induction l with
  | nil => intro i a h; cases h
  | cons x xs ih =>
    intro i a h
    cases i with
    | zero =>
      cases h
      exact List.Perm.refl _
    | succ i =>
      exact (List.Perm.swap x a (xs.eraseIdx i)).trans ((ih i a h).cons x)

/-- A found index points at an element satisfying the predicate. -/
theorem jsFindIndex_get? {p : α → Bool} : ∀ {l : List α} {i : Nat},
    jsFindIndex p l = some i → ∃ a, l.get? i = some a ∧ p a = true := by
  intro l
  induction l with
  | nil => intro i h; cases h
  | cons x xs ih =>
    intro i h
    unfold jsFindIndex at h
    by_cases hx : p x
    · rw [if_pos hx] at h
      cases h
      exact ⟨x, rfl, hx⟩
    · rw [if_neg hx] at h
      rcases hj : jsFindIndex p xs with _ | j
      · rw [hj] at h; cases h
      · rw [hj] at h
        cases h
        obtain ⟨a, ha, hpa⟩ := ih hj
        exact ⟨a, ha, hpa⟩

/-- Some index is found as soon as a member satisfies the predicate. -/
theorem jsFindIndex_isSome {p : α → Bool} : ∀ {l : List α}, (∃ a ∈ l, p a = true) →
    ∃ i, jsFindIndex p l = some i := by
  intro l
  induction l with
  | nil => rintro ⟨a, ha, -⟩; cases ha
  | cons x xs ih =>
    rintro ⟨a, ha, hpa⟩
    by_cases hx : p x
    · exact ⟨0, by simp [jsFindIndex, hx]⟩
    · have hmem : a ∈ xs := by
        rcases List.mem_cons.mp ha with h1 | h1
        · exact absurd (h1 ▸ hpa) hx
        · exact h1
      obtain ⟨i, hi⟩ := ih ⟨a, hmem, hpa⟩
      exact ⟨i + 1, by simp [jsFindIndex, hx, hi]⟩

/-- A successful decode always yields the canonical decoded form of the row. -/
theorem fromJSON_eq_some {r : Row} {now : String} {t : Task}
    (h : Task.fromJSON r now = some t) : t = taskOfRow r now := by
  unfold Task.fromJSON at h
  split at h
  · cases h; rfl
  · split at h
    · cases h; rfl
    · split at h
      · cases h
      · cases h; rfl

/-- A successful `rows.map(Task.fromJSON)` decodes the whole list canonically. -/
theorem decodeRows_ok_eq : ∀ {l : List Row} {now : String} {ts : List Task},
    decodeRows l now = .ok ts → ts = l.map (fun r => taskOfRow r now) := by
  intro l
  induction l with
  | nil => intro now ts h; cases h; rfl
  | cons r rest ih =>
    intro now ts h
    unfold decodeRows at h
    rcases hf : Task.fromJSON r now with _ | t
    · rw [hf] at h; cases h
    · rw [hf] at h
      rcases hd : decodeRows rest now with e | ts'
      · rw [hd] at h; cases h
      · rw [hd] at h
        cases h
        rw [ih hd, fromJSON_eq_some hf]
        rfl

/-- A successful `rows.map(Task.fromJSON)` means every row decodes. -/
theorem decodeRows_ok_mem : ∀ {l : List Row} {now : String} {ts : List Task},
    decodeRows l now = .ok ts → ∀ r ∈ l, Task.fromJSON r now = some (taskOfRow r now) := by
  intro l
  induction l with
  | nil => intro now ts _ r hr; cases hr
  | cons r0 rest ih =>
    intro now ts h r hr
    unfold decodeRows at h
    rcases hf : Task.fromJSON r0 now with _ | t
    · rw [hf] at h; cases h
    · rw [hf] at h
      rcases hd : decodeRows rest now with e | ts'
      · rw [hd] at h; cases h
      · rcases List.mem_cons.mp hr with h1 | h1
        · subst h1
          rw [hf, fromJSON_eq_some hf]
        · exact ih hd r h1

/-- Active statuses are never `completed`. -/
theorem isActiveStatus_ne_completed {st : String} (h : isActiveStatus st = true) :
    st ≠ "completed" := by
  intro he
  rw [he] at h
  exact absurd h (by decide)

/-- No index is found when no member satisfies the predicate. -/
theorem jsFindIndex_eq_none {p : α → Bool} : ∀ {l : List α},
    (∀ a ∈ l, p a = false) → jsFindIndex p l = none := by
  intro l
  induction l with
  | nil => intro _; rfl
  | cons x xs ih =>
    intro h
    unfold jsFindIndex
    rw [if_neg (by simp [h x (List.mem_cons_self x xs)]),
      ih (fun a ha => h a (List.mem_cons_of_mem x ha))]
    rfl

/-- The reindex loop `forEach((t, index) => { t.setPriority(index);
updateTask(t); })`, characterised as a single map over the table when the
written tasks have duplicate-free ids. -/
theorem writeAll_eq_map (now : String) :
    ∀ (ts : List Task) (k : Nat) (s : Store), (ts.map Task.id).Nodup →
      writeAll s ts k now = s.map (writePlan ts k now) := by
  intro ts
  induction ts with
  | nil =>
    intro k s _
    show s = s.map (writePlan [] k now)
    have h : s.map (writePlan [] k now) = s.map id :=
      List.map_congr_left (fun a _ => rfl)
    rw [h, List.map_id]
  | cons t rest ih =>
    intro k s hnd
    have hnd2 : (t.id :: rest.map Task.id).Nodup := by simpa using hnd
    have hnotin : t.id ∉ rest.map Task.id := (List.nodup_cons.mp hnd2).1
    have hnd' : (rest.map Task.id).Nodup := (List.nodup_cons.mp hnd2).2
    have hstep : updateTask s (t.setPriority (k : Int) now) =
        s.map (fun r => if r.id = t.id then reindexedRow r t k now else r) := rfl
    show writeAll (updateTask s (t.setPriority (k : Int) now)) rest (k + 1) now = _
    rw [ih (k + 1) _ hnd', hstep, List.map_map]
    apply congrArg (s.map ·)
    funext r
    show writePlan rest (k + 1) now (if r.id = t.id then reindexedRow r t k now else r) =
      writePlan (t :: rest) k now r
    by_cases hid : r.id = t.id
    · rw [if_pos hid]
      have hnone : jsFindIndex (fun t' => t'.id = (reindexedRow r t k now).id) rest =
          none := by
        apply jsFindIndex_eq_none
        intro a ha
        have hne : a.id ≠ t.id := fun he => hnotin (he ▸ List.mem_map_of_mem Task.id ha)
        show decide (a.id = (reindexedRow r t k now).id) = false
        apply decide_eq_false
        show ¬ a.id = r.id
        exact fun he => hne (by rw [he, hid])
      have hL : writePlan rest (k + 1) now (reindexedRow r t k now) =
          reindexedRow r t k now := by
        unfold writePlan
        rw [hnone]
      have hfound : jsFindIndex (fun t' => t'.id = r.id) (t :: rest) = some 0 := by
        simp only [jsFindIndex]
        rw [if_pos (by simp [hid])]
      have hR : writePlan (t :: rest) k now r = reindexedRow r t k now := by
        unfold writePlan
        rw [hfound]
        rfl
      rw [hL, hR]
    · rw [if_neg hid]
      have hcons : jsFindIndex (fun t' => t'.id = r.id) (t :: rest) =
          (jsFindIndex (fun t' => t'.id = r.id) rest).map (· + 1) := by
        simp only [jsFindIndex]
        rw [if_neg (by simp only [decide_eq_true_eq]; exact fun he => hid he.symm)]
      rcases hj : jsFindIndex (fun t' => t'.id = r.id) rest with _ | i
      · have hL : writePlan rest (k + 1) now r = r := by
          unfold writePlan
          rw [hj]
        have hR : writePlan (t :: rest) k now r = r := by
          unfold writePlan
          rw [hcons, hj]
          rfl
        rw [hL, hR]
      · rcases hg : rest.get? i with _ | t'
        · have hL : writePlan rest (k + 1) now r = r := by
            unfold writePlan
            rw [hj]
            show (match rest.get? i with
              | none => r
              | some t => reindexedRow r t (k + 1 + i) now) = r
            rw [hg]
          have hR : writePlan (t :: rest) k now r = r := by
            unfold writePlan
            rw [hcons, hj]
            show (match (t :: rest).get? (i + 1) with
              | none => r
              | some t => reindexedRow r t (k + (i + 1)) now) = r
            rw [List.get?_cons_succ, hg]
          rw [hL, hR]
        · have hL : writePlan rest (k + 1) now r = reindexedRow r t' (k + 1 + i) now := by
            unfold writePlan
            rw [hj]
            show (match rest.get? i with
              | none => r
              | some t => reindexedRow r t (k + 1 + i) now) = _
            rw [hg]
          have hR : writePlan (t :: rest) k now r = reindexedRow r t' (k + (i + 1)) now := by
            unfold writePlan
            rw [hcons, hj]
            show (match (t :: rest).get? (i + 1) with
              | none => r
              | some t => reindexedRow r t (k + (i + 1)) now) = _
            rw [List.get?_cons_succ, hg]
          rw [hL, hR]
          have harith : k + 1 + i = k + (i + 1) := by omega
          rw [harith]

/-- In a duplicate-free task list, the position of each task's id is its
index: the positions enumerate `0, 1, ..., n-1` in order. -/
theorem idxOfId_map_self : ∀ (ts : List Task), (ts.map Task.id).Nodup →
    ts.map (fun t => idxOfId ts t.id) = List.range ts.length := by
  intro ts
  induction ts with
  | nil => intro _; rfl
  | cons t rest ih =>
    intro hnd
    have hnd2 : (t.id :: rest.map Task.id).Nodup := by simpa using hnd
    have hnotin : t.id ∉ rest.map Task.id := (List.nodup_cons.mp hnd2).1
    have hnd' : (rest.map Task.id).Nodup := (List.nodup_cons.mp hnd2).2
    rw [List.map_cons]
    have h0 : idxOfId (t :: rest) t.id = 0 := by
      unfold idxOfId
      have hfound : jsFindIndex (fun x => x.id = t.id) (t :: rest) = some 0 := by
        simp only [jsFindIndex]
        rw [if_pos (by simp)]
      rw [hfound]
      rfl
    have htail : rest.map (fun x => idxOfId (t :: rest) x.id) =
        (rest.map (fun x => idxOfId rest x.id)).map (· + 1) := by
      rw [List.map_map]
      apply List.map_congr_left
      intro x hx
      have hne : ¬ (t.id = x.id) :=
        fun he => hnotin (he ▸ List.mem_map_of_mem Task.id hx)
      have hpx : (fun t' : Task => decide (t'.id = x.id)) x = true := decide_eq_true rfl
      obtain ⟨i, hi⟩ :=
        @jsFindIndex_isSome Task (fun t' => decide (t'.id = x.id)) rest ⟨x, hx, hpx⟩
      show idxOfId (t :: rest) x.id = idxOfId rest x.id + 1
      unfold idxOfId
      have hcons : jsFindIndex (fun t' => t'.id = x.id) (t :: rest) =
          (jsFindIndex (fun t' => t'.id = x.id) rest).map (· + 1) := by
        simp only [jsFindIndex]
        rw [if_neg (by simp only [decide_eq_true_eq]; exact hne)]
      rw [hcons, hi]
      rfl
    rw [h0, htail, ih hnd', List.length_cons, List.range_succ_eq_map]

/-- Defining equation of `jsFindIndex` on a cons cell. -/
theorem jsFindIndex_cons (p : α → Bool) (a : α) (l : List α) :
    jsFindIndex p (a :: l) = if p a then some 0 else (jsFindIndex p l).map (· + 1) := rfl

/-- In a duplicate-free task list the last task's id is found at index
`length - 1`. -/
theorem jsFindIndex_getLast_of_nodup : ∀ (ts : List Task),
    (ts.map Task.id).Nodup → ∀ t0, ts.getLast? = some t0 →
      jsFindIndex (fun t' => t'.id = t0.id) ts = some (ts.length - 1) := by
  intro ts
  induction ts with
  | nil => intro _ t0 h; cases h
  | cons t rest ih =>
    intro hnd t0 hlast
    cases rest with
    | nil =>
      have ht : t = t0 := by simpa using hlast
      subst ht
      rw [jsFindIndex_cons, if_pos (decide_eq_true rfl)]
      rfl
    | cons u rest2 =>
      have hlast2 : (u :: rest2).getLast? = some t0 := by simpa using hlast
      have hnd2 : (t.id :: (u :: rest2).map Task.id).Nodup := by simpa using hnd
      have hnotin : t.id ∉ (u :: rest2).map Task.id := (List.nodup_cons.mp hnd2).1
      have hnd3 : ((u :: rest2).map Task.id).Nodup := (List.nodup_cons.mp hnd2).2
      have ht0mem : t0 ∈ u :: rest2 := List.mem_of_getLast?_eq_some hlast2
      have hne : ¬ (t.id = t0.id) :=
        fun he => hnotin (he ▸ List.mem_map_of_mem Task.id ht0mem)
      have hrec := ih hnd3 t0 hlast2
      rw [jsFindIndex_cons, if_neg (by simp only [decide_eq_true_eq]; exact hne), hrec]
      rfl

/-- Density of priorities after the full reindex: if the written tasks are (up
to order) exactly the active rows and all carry active statuses, the active
rows of the resulting table have priorities `0, 1, ..., n-1` (as a multiset). -/
theorem writeAll_active_perm (s : Store) (ts : List Task) (now : String)
    (h1 : (s.map Row.id).Nodup)
    (h2 : List.Perm ((activeRows s).map Row.id) (ts.map Task.id))
    (h3 : ∀ t ∈ ts, isActiveStatus t.status = true) :
    List.Perm ((activeRows (writeAll s ts 0 now)).map Row.priority)
      ((List.range ts.length).map Int.ofNat) := by
  have hact_nd : ((activeRows s).map Row.id).Nodup :=
    List.Sublist.nodup (List.Sublist.map Row.id (List.filter_sublist s)) h1
  have hndts : (ts.map Task.id).Nodup := h2.nodup hact_nd
  rw [writeAll_eq_map now ts 0 s hndts]
  have hmem_iff : ∀ r ∈ s,
      (isActiveStatus (writePlan ts 0 now r).status = isActiveStatus r.status) ∧
      (isActiveStatus r.status = true →
        (writePlan ts 0 now r).priority = ((idxOfId ts r.id : Nat) : Int)) := by
    intro r hr
    rcases hj : jsFindIndex (fun t => t.id = r.id) ts with _ | i
    · constructor
      · show isActiveStatus (writePlan ts 0 now r).status = _
        unfold writePlan
        rw [hj]
      · intro hactive
        exfalso
        have hid_not : r.id ∉ ts.map Task.id := by
          intro hmem
          obtain ⟨t, ht, hte⟩ := List.mem_map.mp hmem
          have hpt0 : (fun t' : Task => decide (t'.id = r.id)) t = true := decide_eq_true hte
          obtain ⟨j, hji⟩ :=
            @jsFindIndex_isSome Task (fun t' => decide (t'.id = r.id)) ts ⟨t, ht, hpt0⟩
          rw [hj] at hji
          cases hji
        have : r.id ∈ (activeRows s).map Row.id :=
          List.mem_map_of_mem Row.id (List.mem_filter.mpr ⟨hr, hactive⟩)
        exact hid_not (h2.mem_iff.mp this)
    · obtain ⟨t, hget, hpt⟩ := jsFindIndex_get? hj
      have htmem : t ∈ ts := List.get?_mem hget
      have htid : t.id = r.id := by simpa using hpt
      have hplan : writePlan ts 0 now r = reindexedRow r t (0 + i) now := by
        unfold writePlan
        rw [hj]
        show (match ts.get? i with
          | none => r
          | some t => reindexedRow r t (0 + i) now) = _
        rw [hget]
      have hractive : isActiveStatus r.status = true := by
        have hid_mem : r.id ∈ (activeRows s).map Row.id :=
          h2.mem_iff.mpr (htid ▸ List.mem_map_of_mem Task.id htmem)
        obtain ⟨r', hr', hre⟩ := List.mem_map.mp hid_mem
        have : r' = r :=
          row_eq_of_id_eq h1 (List.mem_of_mem_filter hr') hr hre
        exact this ▸ (List.mem_filter.mp hr').2
      constructor
      · rw [hplan]
        show isActiveStatus t.status = _
        rw [h3 t htmem, hractive]
      · intro _
        rw [hplan]
        show ((0 + i : Nat) : Int) = _
        have : idxOfId ts r.id = i := by
          unfold idxOfId
          rw [hj]
          rfl
        rw [this]
        simp
  unfold activeRows
  rw [List.filter_map]
  have hfilter : s.filter ((fun r => isActiveStatus r.status) ∘ writePlan ts 0 now) =
      s.filter (fun r => isActiveStatus r.status) :=
    List.filter_congr (fun r hr => by
      show isActiveStatus (writePlan ts 0 now r).status = isActiveStatus r.status
      exact (hmem_iff r hr).1)
  rw [hfilter, List.map_map]
  have hprio : (s.filter (fun r => isActiveStatus r.status)).map
      (Row.priority ∘ writePlan ts 0 now) =
      (s.filter (fun r => isActiveStatus r.status)).map
        (fun r => ((idxOfId ts r.id : Nat) : Int)) := by
    apply List.map_congr_left
    intro r hr
    exact (hmem_iff r (List.mem_of_mem_filter hr)).2 (List.mem_filter.mp hr).2
  rw [hprio]
  have hsplit : (s.filter (fun r => isActiveStatus r.status)).map
      (fun r => ((idxOfId ts r.id : Nat) : Int)) =
      (((s.filter (fun r => isActiveStatus r.status)).map Row.id).map
        (fun x => idxOfId ts x)).map Int.ofNat := by
    simp [List.map_map, Function.comp]
  rw [hsplit]
  refine List.Perm.map _ ?_
  have hperm2 : List.Perm
      (((s.filter (fun r => isActiveStatus r.status)).map Row.id).map (idxOfId ts))
      ((ts.map Task.id).map (idxOfId ts)) := List.Perm.map _ h2
  refine hperm2.trans ?_
  have : (ts.map Task.id).map (idxOfId ts) = ts.map (fun t => idxOfId ts t.id) := by
    simp [List.map_map, Function.comp]
  rw [this, idxOfId_map_self ts hndts]


/-- Claim C5.  Under the PRIMARY KEY invariant, every successful
`moveTask(id, direction)` either returns the store unchanged (the clamped
no-op path) or — whenever the reindex transaction runs — leaves the active
(non-completed) rows with priorities forming exactly the multiset
`{0, 1, ..., activeCount-1}`: dense, gap-free and duplicate-free, assigned by
position in the new order.  In this model the transaction is a single pure
update of the table, so no intermediate state is observable. -/
theorem claim_C5_moveTask_dense_priorities (s : Store) (tid dir now : String)
    (t : Task) (s' : Store)
    (hnd : (s.map Row.id).Nodup)
    (h : moveTask s tid dir now = .ok (some t, s')) :
    s' = s ∨
      List.Perm ((activeRows s').map Row.priority)
        ((List.range (activeRows s).length).map Int.ofNat) := by
  unfold moveTask at h
  split at h
  · cases h
  · simp at h
  · rename_i task hg
    split at h
    · simp at h
    · split at h
      · cases h
      · rename_i allTasks hact
        split at h
        · simp at h
        · rename_i ci hfi
          split at h
          · split at h
            · simp only [Except.ok.injEq, Prod.mk.injEq, Option.some.injEq] at h
              exact Or.inl h.2.symm
            · rename_i heq
              split at h
              · simp at h
              · rename_i movedTask hget
                split at h
                · cases h
                · rename_i r hg2
                  simp only [Except.ok.injEq, Prod.mk.injEq] at h
                  have hs' : s' = moveWrite s allTasks ci movedTask dir now := h.2.symm
                  right
                  subst hs'
                  have hdec : allTasks =
                      (sortRowsByPriority (activeRows s)).map
                        (fun r => taskOfRow r now) := decodeRows_ok_eq hact
                  have hids_all : allTasks.map Task.id =
                      (sortRowsByPriority (activeRows s)).map Row.id := by
                    rw [hdec, List.map_map]
                    exact List.map_congr_left (fun r _ => rfl)
                  have hperm_sort :
                      List.Perm ((sortRowsByPriority (activeRows s)).map Row.id)
                        ((activeRows s).map Row.id) :=
                    List.Perm.map _ (sortRowsByPriority_perm (activeRows s))
                  have hperm_reord : List.Perm
                      (insertAtIdx (moveNewIndex dir ci allTasks.length).toNat
                        movedTask (allTasks.eraseIdx ci))
                      allTasks :=
                    (insertAtIdx_perm movedTask _ _).trans
                      (cons_eraseIdx_perm allTasks ci movedTask hget)
                  have h2 : List.Perm ((activeRows s).map Row.id)
                      ((insertAtIdx (moveNewIndex dir ci allTasks.length).toNat
                        movedTask (allTasks.eraseIdx ci)).map Task.id) := by
                    refine (hperm_sort.symm.trans ?_)
                    rw [← hids_all]
                    exact (List.Perm.map Task.id hperm_reord).symm
                  have h3 : ∀ t' ∈ insertAtIdx
                      (moveNewIndex dir ci allTasks.length).toNat movedTask
                      (allTasks.eraseIdx ci), isActiveStatus t'.status = true := by
                    intro t' ht'
                    have ht'' : t' ∈ allTasks := hperm_reord.mem_iff.mp ht'
                    rw [hdec] at ht''
                    obtain ⟨r0, hr0, hre⟩ := List.mem_map.mp ht''
                    have hr0' : r0 ∈ activeRows s :=
                      (sortRowsByPriority_perm (activeRows s)).mem_iff.mp hr0
                    have hr0a : isActiveStatus r0.status = true :=
                      (List.mem_filter.mp hr0').2
                    rw [← hre]
                    exact hr0a
                  have hlen : (insertAtIdx
                      (moveNewIndex dir ci allTasks.length).toNat movedTask
                      (allTasks.eraseIdx ci)).length = (activeRows s).length := by
                    have e1 := hperm_reord.length_eq
                    have e2 : allTasks.length =
                        (sortRowsByPriority (activeRows s)).length := by
                      rw [hdec, List.length_map]
                    have e3 := (sortRowsByPriority_perm (activeRows s)).length_eq
                    omega
                  have hmain := writeAll_active_perm s
                    (insertAtIdx (moveNewIndex dir ci allTasks.length).toNat
                      movedTask (allTasks.eraseIdx ci)) now hnd h2 h3
                  rw [hlen] at hmain
                  exact hmain
          · simp at h


/-- Claim C5 (witness): moving the second of two pending tasks up reindexes
the active priorities to the dense set `{0, 1}`. -/
theorem claim_C5_witness :
    exStoreMoved = [exRowA, exRowB] ∨
      List.Perm ((activeRows exStoreMoved).map Row.priority)
        ((List.range (activeRows [exRowA, exRowB]).length).map Int.ofNat) :=
  claim_C5_moveTask_dense_priorities [exRowA, exRowB] "b" "up" "T9" exTaskBMoved
    exStoreMoved (by decide) (by rfl)

/-- Claim C6.  Under the PRIMARY KEY invariant, with `ts` the decoded active
task list (ordered by priority): `moveTask` on the first active task with
direction `'up'` is a silent no-op that returns that task and leaves the
store untouched; `moveTask` on the last active task with `'down'` is likewise
a no-op; and `moveTask` on a task whose stored row is completed (hence absent
from the active set) returns the absent (`null`) sentinel with the store
untouched, for any direction. -/
theorem claim_C6_moveTask_boundaries (s : Store) (tid dir now : String)
    (ts : List Task)
    (hnd : (s.map Row.id).Nodup)
    (hact : getAllActiveTasks s now = .ok ts) :
    (∀ t0, ts.head? = some t0 → t0.id = tid →
      moveTask s tid "up" now = .ok (some t0, s)) ∧
    (∀ t0, ts.getLast? = some t0 → t0.id = tid →
      moveTask s tid "down" now = .ok (some t0, s)) ∧
    (∀ r ∈ s, r.id = tid → r.status = "completed" →
      (Task.fromJSON r now).isSome = true →
      moveTask s tid dir now = .ok (none, s)) := by
  have hact2 : decodeRows (sortRowsByPriority (activeRows s)) now = .ok ts := hact
  have hdec : ts = (sortRowsByPriority (activeRows s)).map (fun r => taskOfRow r now) :=
    decodeRows_ok_eq hact2
  refine ⟨?_, ?_, ?_⟩
  · intro t0 hhead hid
    subst hid
    have hmap : ((sortRowsByPriority (activeRows s)).map
        (fun r => taskOfRow r now)).head? = some t0 := by
      rw [← hdec]; exact hhead
    rw [List.head?_map] at hmap
    obtain ⟨r0, hr0h, hr0e⟩ := Option.map_eq_some'.mp hmap
    obtain ⟨ys, hys⟩ := List.head?_eq_some_iff.mp hr0h
    have hr0sorted : r0 ∈ sortRowsByPriority (activeRows s) := by
      rw [hys]; exact List.mem_cons_self _ _
    have hr0act : r0 ∈ activeRows s :=
      (sortRowsByPriority_perm (activeRows s)).mem_iff.mp hr0sorted
    have hr0s : r0 ∈ s := List.mem_of_mem_filter hr0act
    have hr0active : isActiveStatus r0.status = true := (List.mem_filter.mp hr0act).2
    have hidr : t0.id = r0.id := by rw [← hr0e]; rfl
    have hfind : s.find? (fun x => x.id = t0.id) = some r0 := by
      rw [hidr]; exact find?_id_of_mem hnd hr0s
    have hfrom : Task.fromJSON r0 now = some (taskOfRow r0 now) :=
      decodeRows_ok_mem hact2 r0 hr0sorted
    have hgtb : getTaskById s t0.id now = .ok (some t0) := by
      unfold getTaskById
      rw [hfind]
      simp only []
      rw [hfrom, hr0e]
    have hnc : ¬ (t0.status = "completed") := by
      rw [← hr0e]
      exact isActiveStatus_ne_completed hr0active
    have hfi : jsFindIndex (fun t' => t'.id = t0.id) ts = some 0 := by
      obtain ⟨zs, hzs⟩ := List.head?_eq_some_iff.mp hhead
      rw [hzs, jsFindIndex_cons, if_pos (decide_eq_true rfl)]
    have hmni : moveNewIndex "up" 0 ts.length = ((0 : Nat) : Int) := rfl
    unfold moveTask
    rw [hgtb]
    simp only []
    rw [if_neg hnc, hact]
    simp only []
    rw [hfi]
    simp only []
    simp [hmni]
  · intro t0 hlast hid
    subst hid
    have hmap : ((sortRowsByPriority (activeRows s)).map
        (fun r => taskOfRow r now)).getLast? = some t0 := by
      rw [← hdec]; exact hlast
    rw [List.getLast?_map] at hmap
    obtain ⟨r0, hr0h, hr0e⟩ := Option.map_eq_some'.mp hmap
    have hr0sorted : r0 ∈ sortRowsByPriority (activeRows s) :=
      List.mem_of_getLast?_eq_some hr0h
    have hr0act : r0 ∈ activeRows s :=
      (sortRowsByPriority_perm (activeRows s)).mem_iff.mp hr0sorted
    have hr0s : r0 ∈ s := List.mem_of_mem_filter hr0act
    have hr0active : isActiveStatus r0.status = true := (List.mem_filter.mp hr0act).2
    have hidr : t0.id = r0.id := by rw [← hr0e]; rfl
    have hfind : s.find? (fun x => x.id = t0.id) = some r0 := by
      rw [hidr]; exact find?_id_of_mem hnd hr0s
    have hfrom : Task.fromJSON r0 now = some (taskOfRow r0 now) :=
      decodeRows_ok_mem hact2 r0 hr0sorted
    have hgtb : getTaskById s t0.id now = .ok (some t0) := by
      unfold getTaskById
      rw [hfind]
      simp only []
      rw [hfrom, hr0e]
    have hnc : ¬ (t0.status = "completed") := by
      rw [← hr0e]
      exact isActiveStatus_ne_completed hr0active
    have hids : ts.map Task.id = (sortRowsByPriority (activeRows s)).map Row.id := by
      rw [hdec, List.map_map]
      exact List.map_congr_left (fun r _ => rfl)
    have hactnd : ((activeRows s).map Row.id).Nodup :=
      List.Sublist.nodup (List.Sublist.map Row.id (List.filter_sublist s)) hnd
    have hsortnd : ((sortRowsByPriority (activeRows s)).map Row.id).Nodup :=
      (List.Perm.map Row.id (sortRowsByPriority_perm (activeRows s))).symm.nodup hactnd
    have htsnd : (ts.map Task.id).Nodup := by rw [hids]; exact hsortnd
    have hfi : jsFindIndex (fun t' => t'.id = t0.id) ts = some (ts.length - 1) :=
      jsFindIndex_getLast_of_nodup ts htsnd t0 hlast
    have hlen1 : 1 ≤ ts.length := by
      obtain ⟨ys, hys⟩ := List.getLast?_eq_some_iff.mp hlast
      rw [hys]
      simp
    have hmni : moveNewIndex "down" (ts.length - 1) ts.length =
        ((ts.length - 1 : Nat) : Int) := by
      unfold moveNewIndex
      rw [if_neg (by decide)]
      omega
    unfold moveTask
    rw [hgtb]
    simp only []
    rw [if_neg hnc, hact]
    simp only []
    rw [hfi]
    simp only []
    simp [hmni]
  · intro r hr hid hcomp hdec2
    subst hid
    obtain ⟨t1, ht1⟩ := Option.isSome_iff_exists.mp hdec2
    have ht1e : t1 = taskOfRow r now := fromJSON_eq_some ht1
    have hgtb : getTaskById s r.id now = .ok (some (taskOfRow r now)) := by
      unfold getTaskById
      rw [find?_id_of_mem hnd hr]
      simp only []
      rw [ht1]
      simp only []
      rw [ht1e]
    have hcstat : (taskOfRow r now).status = "completed" := hcomp
    unfold moveTask
    rw [hgtb]
    simp only []
    rw [if_pos hcstat]

/-- Claim C6 (witness): on two pending tasks, moving the first one up is a
no-op returning the decoded first task and the untouched store. -/
theorem claim_C6_witness :
    ([exRowA, exRowB].map Row.id).Nodup ∧
      moveTask [exRowA, exRowB] "a" "up" "T9" = .ok (some exTaskA, [exRowA, exRowB]) :=
  ⟨by decide,
    (claim_C6_moveTask_boundaries [exRowA, exRowB] "a" "up" "T9" [exTaskA, exTaskB]
        (by decide) (by rfl)).1 exTaskA rfl rfl⟩

end Todo
